import Mathlib

/-!
# Verification of the hat-guessing Hanabi player

Shallow embedding of `src/players/hat_player.py` (class `HatPlayer`) and the
parts of the game engine it reads.  Python tuples `('play', n)`, `('discard', n)`,
`('hint', 0)` become the inductive `Action`; card names `"3y"` (a two-character
string: rank digit then suit letter) become the structure `Cardname`; Python's
`%` on integers is `Int.emod`, which agrees with it for positive moduli.

The helper modules `hanabi_classes` and `bot_utils` are imported by the source
but are not part of this repository snapshot; the few helpers the embedded
functions need are modelled from the spec and marked as such in their doc
comments.
-/

namespace Hat

/-- A card name: rank (the digit character of `name[0]`) and suit
(the character `name[1]`). -/
structure Cardname where
  rank : Nat
  suit : Char
deriving DecidableEq, Repr, Inhabited

/-- A card in a hand.  The Python card dict carries its name plus identifying
fields (such as the time it was drawn); `time` stands for those, so that two
cards with the same name are distinct values, as the corresponding dicts are. -/
structure Card where
  name : Cardname
  time : Nat
deriving DecidableEq, Repr, Inhabited

/-- Progress of the piles: suit ↦ highest rank played (`r.progress`,
a dict in the source). -/
def Progress := Char → Nat

/-- A player's action in the bot's internal encoding: `('play', n)`,
`('discard', n)`, `('hint', 0)`.  Slots are Python ints, hence `Int`. -/
inductive Action where
  | play (slot : Int)
  | discard (slot : Int)
  | hint (payload : Int)
deriving DecidableEq, Repr

/-- Embeds `number_to_action` (hat_player.py:384): `0 ↦ hint`, `1..4 ↦ play (4-n)`,
otherwise `discard (8-n)`. -/
def number_to_action (n : Int) : Action :=
  if n = 0 then .hint 0
  else if n ≤ 4 then .play (4 - n)
  else .discard (8 - n)

/-- Embeds `action_to_number` (hat_player.py:404): `hint ↦ 0`,
`play s ↦ 4 - s`, `discard s ↦ 4 - s + 4`. -/
def action_to_number (a : Action) : Int :=
  match a with
  | .hint _ => 0
  | .play s => 4 - s
  | .discard s => 4 - s + 4

/-- Embeds `next` (hat_player.py:25): the player after `n` among `r.nPlayers` players. -/
def nextPlayer (n : Int) (nPlayers : Nat) : Int :=
  (n + 1) % (nPlayers : Int)

/-- Embeds `prev` (hat_player.py:29): the player before `n`. -/
def prevPlayer (n : Int) (nPlayers : Nat) : Int :=
  (n - 1) % (nPlayers : Int)

/-- Embeds `prev_cardname` (hat_player.py:33): the card one rank below, same suit. -/
def prev_cardname (c : Cardname) : Cardname :=
  { rank := c.rank - 1, suit := c.suit }

/-- Embeds `is_between` (hat_player.py:371): whether `x` lies in turn order between
`begin` and `end` inclusive, all three below the number of players. -/
def is_between (x bg en : Nat) : Bool :=
  (bg ≤ x && x ≤ en) || (en < bg && bg ≤ x) || (x ≤ en && en < bg)

/-- Embeds `subtract_action` (hat_player.py:150):
`d['value'] = (d['value'] - action_to_number(action)) % 9`. -/
def subtract_action (value : Int) (a : Action) : Int :=
  (value - action_to_number a) % 9

/-- The running sum of encoded actions, as accumulated mod 9 by the cluer
(hat_player.py:654: `cluenumber = (cluenumber + action_to_number(x)) % 9`). -/
def codeSum (l : List Action) : Int :=
  l.foldl (fun v a => (v + action_to_number a) % 9) 0

/-- Whether an action is a play. -/
def Action.isPlay : Action → Bool
  | .play _ => true
  | _ => false

/-- Whether an action is a discard. -/
def Action.isDiscard : Action → Bool
  | .discard _ => true
  | _ => false

/-- Whether an action is a hint. -/
def Action.isHint : Action → Bool
  | .hint _ => true
  | _ => false

/-- Modelled from the spec: `is_cardname_playable` from `bot_utils` (not under
src/): a card is immediately playable against `progress` iff the pile of its
suit stands exactly one rank below the card's rank. -/
def is_cardname_playable (c : Cardname) (progress : Progress) : Bool :=
  progress c.suit + 1 == c.rank

/-- Modelled from the spec: `get_played_cards` from `bot_utils`: the cards of
the hand that are "already fully played in their suit" against `progress`. -/
def get_played_cards (cards : List Card) (progress : Progress) : List Card :=
  cards.filter (fun c => c.name.rank ≤ progress c.name.suit)

/-- Modelled from the spec: `get_duplicate_cards` from `bot_utils`: the cards
that are "a literal duplicate already in the same hand" (their name occurs
more than once in the hand). -/
def get_duplicate_cards (cards : List Card) : List Card :=
  cards.filter (fun c => 1 < (cards.filter (fun d => d.name == c.name)).length)

/-- Modelled from the spec: `get_plays` from `bot_utils`: the cards of the hand
immediately playable against `progress`. -/
def get_plays (cards : List Card) (progress : Progress) : List Card :=
  cards.filter (fun c => is_cardname_playable c.name progress)

/-- Modelled from the spec: `get_nonvisible_cards` from `bot_utils`: the cards
whose name is "not yet in the discard pile". -/
def get_nonvisible_cards (cards : List Card) (discardpile : List Cardname) : List Card :=
  cards.filter (fun c => !(discardpile.contains c.name))

/-- Modelled from the spec: `find_lowest` from `bot_utils`: the card of lowest
rank in the list, the first such card winning ties (the spec's "lowest rank"
comparator); `none` on the empty list, where the source has no element to
return. -/
def find_lowest (l : List Card) : Option Card :=
  l.foldl
    (fun acc c =>
      match acc with
      | none => some c
      | some b => if c.name.rank < b.name.rank then some c else some b)
    none

/-- Modelled from the spec: `find_highest` from `bot_utils`: the card of
highest rank, the first such card winning ties. -/
def find_highest (l : List Card) : Option Card :=
  l.foldl
    (fun acc c =>
      match acc with
      | none => some c
      | some b => if b.name.rank < c.name.rank then some c else some b)
    none

/-- Embeds `want_to_play` (hat_player.py:241).  `progress` is the projected progress
argument and `rProgress` is `r.progress`, the engine's actual progress — the
source tests `r.progress` in both playability checks.  `dic` is the
`card_to_player` dictionary; at the (unreachable) final branch the source's
`dic[...]` would raise `KeyError` on a missing key, modelled as `false`. -/
def want_to_play (cluer player : Nat) (dont_play : List Cardname)
    (progress : Progress) (dic : Cardname → Option Nat) (cardname : Cardname)
    (rProgress : Progress) : Bool :=
  if !is_cardname_playable cardname rProgress then false
  else if dont_play.contains cardname then false
  else if is_cardname_playable cardname rProgress then true
  else
    match dic (prev_cardname cardname) with
    | some p => is_between p cluer player
    | none => false

/-- Embeds `easy_discards` (hat_player.py:341): a card already played, else a card
duplicated in the hand, else hint. -/
def easy_discards (cards : List Card) (progress : Progress) : Action :=
  match get_played_cards cards progress with
  | c :: _ => .discard (cards.indexOf c)
  | [] =>
    match get_duplicate_cards cards with
    | c :: _ => .discard (cards.indexOf c)
    | [] => .hint 0

/-- Embeds `standard_nonplay` (hat_player.py:235): the standard action of a player
with no play, which is `easy_discards`. -/
def standard_nonplay (cards : List Card) (progress : Progress) : Action :=
  easy_discards cards progress

/-- Embeds `hard_discards` (hat_player.py:356): a card to be played by this clue,
else the highest non-5 card not visible in the discard pile, else hint. -/
def hard_discards (cards : List Card) (dont_play : List Cardname)
    (discardpile : List Cardname) : Action :=
  match cards.filter (fun c => dont_play.contains c.name) with
  | c :: _ => .discard (cards.indexOf c)
  | [] =>
    match find_highest ((get_nonvisible_cards cards discardpile).filter
        (fun c => c.name.rank ≠ 5)) with
    | some c => .discard (cards.indexOf c)
    | none => .hint 0

/-- Embeds `standard_action` (hat_player.py:252).  `cards` is `r.h[player].cards`,
`rProgress` is `r.progress`.  A player already committed by `player_to_card`
keeps their slot; otherwise the want-to-play candidates are filtered, the list
reversed, `find_lowest` chooses, and `cards.index` recovers the slot. -/
def standard_action (cluer player : Nat) (dont_play : List Cardname)
    (progress : Progress) (card_to_player : Cardname → Option Nat)
    (player_to_card : Nat → Option Int) (cards : List Card)
    (rProgress : Progress) : Action :=
  match player_to_card player with
  | some n => .play n
  | none =>
    let playableCards := cards.filter
      (fun card => want_to_play cluer player dont_play progress card_to_player
        card.name rProgress)
    match find_lowest playableCards.reverse with
    | some wanttoplay => .play (cards.indexOf wanttoplay : Nat)
    | none => standard_nonplay cards progress

/-- The future-prediction fields of the `HatPlayer` instance that
`modified_action` reads (`min_futurehints`, `modified_hints`,
`futuredecksize`, `futurehints`, `cards_played`, `futureplays`,
`cards_discarded`, `futurediscards`). -/
structure FutureView where
  min_futurehints : Int
  modified_hints : Int
  futuredecksize : Nat
  futurehints : Int
  cards_played : Nat
  futureplays : Nat
  cards_discarded : Nat
  futurediscards : Nat
deriving Repr

/-- Embeds `modified_action` (hat_player.py:280), with `MODIFIEDACTION = True`
(hat_player.py:22) so the early return is skipped.  `count_unplayed` stands
for the engine call `count_unplayed_playable_cards(r, self.futureprogress)`
and `discardpile` for `r.discardpile`.  Python truthiness of the counters
(`not self.cards_played` and so on) is `= 0`. -/
def modified_action (fv : FutureView) (cluer player : Nat)
    (dont_play : List Cardname) (progress : Progress)
    (card_to_player : Cardname → Option Nat) (player_to_card : Nat → Option Int)
    (cards : List Card) (rProgress : Progress) (discardpile : List Cardname)
    (count_unplayed : Nat) : Action :=
  let x := standard_action cluer player dont_play progress card_to_player
    player_to_card cards rProgress
  match x with
  | .play s =>
    if fv.min_futurehints ≤ 0 ∧ (cards.getD s.toNat default).name.rank ≠ 5 then
      match (get_plays cards progress).filter (fun c => c.name.rank = 5) with
      | five :: _ => .play (cards.indexOf five : Nat)
      | [] => x
    else x
  | _ =>
    if fv.modified_hints ≥ 8 then .hint 0
    else if x.isDiscard ∧ fv.futuredecksize ≥ count_unplayed then x
    else if fv.min_futurehints ≤ 0 ∨ fv.futurehints ≤ 1 ∨
        (fv.cards_played = 0 ∧ fv.futureplays = 0 ∧ fv.cards_discarded = 0 ∧
          fv.futurediscards = 0) ∨
        (fv.cards_played = 0 ∧ fv.futureplays = 0 ∧
          fv.futuredecksize ≥ count_unplayed) then
      let y := easy_discards cards progress
      if y.isDiscard then y
      else
        let z := hard_discards cards dont_play discardpile
        if z.isDiscard then z else .hint 0
    else .hint 0

/-- Embeds `update_value_after_action` (hat_player.py:154), acting on the active
clue's value.  `modified_player` is `self.modified_player`, `futureprogress`
is `self.futureprogress`, `discards` is the clue's `'discards'` dictionary
(total over the players it is queried at), and `MODIFIEDACTION = True`
reduces `player == self.modified_player and MODIFIEDACTION` to the equality.
The split names the action the source actually subtracts (the substituted
default non-play when the actor hinted without being the modified player, or
played a card not playable against `futureprogress`; the observed action
otherwise). -/
def effective_action (modified_player : Nat) (futureprogress : Progress)
    (discards : Nat → Action) (action : Action) (cardname : Cardname)
    (player : Nat) : Action :=
  if (action.isHint ∧ ¬ player = modified_player) ∨
      (action.isPlay ∧ ¬ is_cardname_playable cardname futureprogress) then
    discards player
  else action

/-- Continuation of `update_value_after_action`: subtract the effective
action's code from the active clue's value. -/
def update_value_after_action (modified_player : Nat) (futureprogress : Progress)
    (discards : Nat → Action) (value : Int) (action : Action)
    (cardname : Cardname) (player : Nat) : Int :=
  subtract_action value
    (effective_action modified_player futureprogress discards action cardname player)

/-- A clue value as observed by the players: a rank clue or a colour clue.
The source represents both as characters and distinguishes them by
`value in r.suits`; the sum type makes that test explicit. -/
inductive ClueV where
  | rank (n : Nat)
  | suit (s : Char)
deriving DecidableEq, Repr, Inhabited

/-- Whether a clue value is a colour clue (`value in r.suits` in the source). -/
def ClueV.isSuit : ClueV → Bool
  | .suit _ => true
  | .rank _ => false

/-- Modelled from the spec: `VANILLA_SUITS` from `hanabi_classes` (not under
src/): the five regular suits, the spec's "suits {r,y,g,b,w}". -/
def VANILLA_SUITS : List Char := ['r', 'y', 'g', 'b', 'w']

/-- Modelled from the spec: `RAINBOW_SUIT` from `hanabi_classes` (not under
src/): the extra rainbow suit, touched by a colour clue of any suit. -/
def RAINBOW_SUIT : Char := '?'

/-- Modelled from the spec: whether a clue value touches a card — a rank clue
touches the cards of that rank, a colour clue touches the cards of that suit
and every rainbow card (engine behaviour of `hanabi_classes`, not under
src/). -/
def touches (c : Cardname) (v : ClueV) : Bool :=
  match v with
  | .rank n => c.rank == n
  | .suit s => c.suit == s || c.suit == RAINBOW_SUIT

/-- Embeds `clue_to_number` (hat_player.py:411).  The source decides `x = 2` by
testing whether the newest card's `indirect` list ends with the clue value;
the engine (`hanabi_classes`, not under src/) appends a clue's value to a
card's `indirect` list exactly when the clue does not touch that card, so the
test is modelled as `¬ touches newest value`.  `value in r.suits` is
`value.isSuit`.  The Python `%` on possibly negative ints is `Int.emod`. -/
def clue_to_number (target : Nat) (value : ClueV) (clueGiver : Nat)
    (nPlayers : Nat) (hands : Nat → List Cardname) : Int :=
  let newest := (hands target).getLastD default
  let x : Int := if ¬ touches newest value then 2 else if value.isSuit then 1 else 0
  3 * (((target : Int) - (clueGiver : Int) - 1) % (nPlayers : Int)) + x

/-- The `x == 2` search loop of `number_to_clue` (hat_player.py:442): scan the
older cards in order; a card of different rank gives a rank clue; otherwise a
card of different suit (when the newest card is not rainbow) gives a colour
clue, with the rainbow fallbacks of the source; `none` when the loop leaves
`clue` empty. -/
def findClue2 (newest : Cardname) : List Cardname → Option ClueV
  | [] => none
  | c :: rest =>
    if c.rank ≠ newest.rank then some (.rank c.rank)
    else if c.suit ≠ newest.suit ∧ newest.suit ≠ RAINBOW_SUIT then
      some (.suit (if c.suit ≠ RAINBOW_SUIT then c.suit
        else if newest.suit ≠ VANILLA_SUITS.getD 0 default then VANILLA_SUITS.getD 0 default
        else VANILLA_SUITS.getD 1 default))
    else findClue2 newest rest

/-- Embeds `number_to_clue` (hat_player.py:428), part one: the clue value
chosen from the target's newest card by `x = cluenumber % 3` — the newest
rank for 0, the newest suit (or a vanilla fallback on rainbow) for 1, the
`findClue2` scan for 2; `none` when the source leaves `clue` empty. -/
def clue_value_choice (x : Nat) (newest : Cardname)
    (older : List Cardname) : Option ClueV :=
  if x = 0 then some (.rank newest.rank)
  else if x = 1 then
    some (.suit (if newest.suit ≠ RAINBOW_SUIT then newest.suit
      else VANILLA_SUITS.getD 2 default))
  else findClue2 newest older

/-- Continuation of `number_to_clue`: the target is
`(me + 1 + cluenumber // 3) % nPlayers` (asserted distinct from `me`, proved
below), paired with the chosen clue, falling back to the newest card's rank
when no non-touching clue exists (hat_player.py:454). -/
def number_to_clue (cluenumber me : Nat) (nPlayers : Nat)
    (hands : Nat → List Cardname) : Nat × ClueV :=
  let target := (me + 1 + cluenumber / 3) % nPlayers
  let cards := hands target
  let newest := cards.getLastD default
  match clue_value_choice (cluenumber % 3) newest cards.dropLast with
  | some c => (target, c)
  | none => (target, .rank newest.rank)

/-- The gating at the top of `play` (hat_player.py:554): on the first lap
(`len(r.playHistory) < n`) every player's class must be `HatPlayer`, and on
the very first turn (`len(r.playHistory) == 0`) the game must have more than
3 players; either failure raises `NameError`. -/
def play_gate (historyLen nPlayers : Nat) (classNames : List String) :
    Except String Unit :=
  if historyLen < nPlayers ∧ ¬ classNames.all (fun s => s == "HatPlayer") then
    .error "Hat AI must only play with other hatters"
  else if historyLen = 0 ∧ nPlayers ≤ 3 then
    .error "This AI works only with at least 4 players."
  else .ok ()

end Hat

namespace Hat

/-- C2: Codec bijection — for every legal per-agent action (`hint 0`, or
`play s` / `discard s` with slot `s` in `0..hand_size-1` and `hand_size ≤ 4`),
`number_to_action (action_to_number a) = a`; and for every `n` in `0..8`
realizable for that hand size (the decoded slot exists in the hand),
`action_to_number (number_to_action n) = n`. -/
theorem action_codec_bijection (hand_size : Nat) (hhs : hand_size ≤ 4) :
    number_to_action (action_to_number (.hint 0)) = .hint 0 ∧
    (∀ s : Int, 0 ≤ s → s < (hand_size : Int) →
      number_to_action (action_to_number (.play s)) = .play s ∧
      number_to_action (action_to_number (.discard s)) = .discard s) ∧
    (∀ n : Int, 0 ≤ n → n ≤ 8 →
      (n = 0 ∨ (1 ≤ n ∧ n ≤ 4 ∧ 4 - n < (hand_size : Int)) ∨
        (5 ≤ n ∧ 8 - n < (hand_size : Int))) →
      action_to_number (number_to_action n) = n) := by
  have hc : ((hand_size : Int)) ≤ 4 := by exact_mod_cast hhs
  refine ⟨rfl, ?_, ?_⟩
  · intro s hs0 hs1
    constructor
    · simp only [action_to_number, number_to_action]
      split_ifs with h1 h2
      · exfalso; omega
      · simp only [Action.play.injEq]; omega
      · exfalso; omega
    · simp only [action_to_number, number_to_action]
      split_ifs with h1 h2
      · exfalso; omega
      · exfalso; omega
      · simp only [Action.discard.injEq]; omega
  · intro n hn0 hn8 hreal
    simp only [number_to_action]
    split_ifs with h1 h2
    · simp only [action_to_number]; omega
    · simp only [action_to_number]; omega
    · simp only [action_to_number]; omega

/-- Witness for C2 at `hand_size = 4`, `s = 2`, `n = 7`. -/
theorem action_codec_bijection_witness :
    number_to_action (action_to_number (.play 2)) = .play 2 ∧
    action_to_number (number_to_action 7) = 7 :=
  ⟨((action_codec_bijection 4 (by norm_num)).2.1 2 (by norm_num) (by norm_num)).1,
   (action_codec_bijection 4 (by norm_num)).2.2 7 (by norm_num) (by norm_num)
     (Or.inr (Or.inr ⟨by norm_num, by norm_num⟩))⟩

/-- Counterexample to C7: `number_to_action` takes no hand size and never
fails.  Decoding `n = 4` — out of range for a hand of fewer than 4 cards —
silently yields `play 0`, a slot that does exist in such a hand, with no
protocol-violation flag of any kind. -/
theorem number_to_action_no_flag_counterexample :
    number_to_action 4 = .play 0 ∧ number_to_action 1 = .play 3 := by
  constructor <;> rfl

/-- C7 as amended: `number_to_action` performs no hand-size validation; for
every `n` in `1..4` it returns `play (4 - n)` unconditionally, whether or not
the hand holds that slot — any out-of-range failure is left to the caller. -/
theorem number_to_action_no_check (n : Int) (h1 : 1 ≤ n) (h4 : n ≤ 4) :
    number_to_action n = .play (4 - n) := by
  unfold number_to_action
  rw [if_neg (show ¬ n = 0 by omega), if_pos h4]

/-- Witness for the amended C7 at `n = 4`. -/
theorem number_to_action_no_check_witness :
    number_to_action 4 = .play 0 :=
  number_to_action_no_check 4 (by norm_num) (by norm_num)

end Hat

namespace Hat

/-- C10: the clue target computed by `number_to_clue`, namely
`(me + 1 + n / 3) % nPlayers`, differs from the cluer `me` for every clue
number `n ≤ 8` and every player count of at least 4, so the source's
`assert target != me` never fails; the target is `1 + n / 3 ≤ 3` seats
ahead. -/
theorem clue_target_ne_cluer (n me p : Nat) (hands : Nat → List Cardname)
    (hp : 4 ≤ p) (hme : me < p) (hn : n ≤ 8) :
    (number_to_clue n me p hands).1 ≠ me ∧
    (number_to_clue n me p hands).1 = (me + 1 + n / 3) % p ∧ n / 3 ≤ 2 := by
  have hk : n / 3 ≤ 2 := by omega
  have htarget : (number_to_clue n me p hands).1 = (me + 1 + n / 3) % p := by
    unfold number_to_clue
    dsimp only
    split <;> rfl
  refine ⟨?_, htarget, hk⟩
  rw [htarget]
  rcases Nat.lt_or_ge (me + 1 + n / 3) p with h | h
  · rw [Nat.mod_eq_of_lt h]; omega
  · rw [Nat.mod_eq_sub_mod h, Nat.mod_eq_of_lt (by omega)]; omega

/-- Witness for C10 at `n = 7`, `me = 3`, `p = 4` (the wrap-around case:
the target is `(3 + 1 + 2) % 4 = 2`). -/
theorem clue_target_ne_cluer_witness :
    (number_to_clue 7 3 4 (fun _ => [])).1 ≠ 3 :=
  (clue_target_ne_cluer 7 3 4 (fun _ => []) (by norm_num) (by norm_num)
    (by norm_num)).1

end Hat

namespace Hat

/-- C9: lineup gating in `play` — on the very first turn the game must have
more than 3 players; during the whole first lap every player must be of class
`HatPlayer`; with at least 4 players all of the hat type the gate passes at
any point of the game. -/
theorem play_gate_lineup (historyLen n : Nat) (classes : List String) :
    (n ≤ 3 → ∃ e, play_gate 0 n classes = .error e) ∧
    (historyLen < n → (∃ s ∈ classes, s ≠ "HatPlayer") →
      play_gate historyLen n classes =
        .error "Hat AI must only play with other hatters") ∧
    (4 ≤ n → (∀ s ∈ classes, s = "HatPlayer") →
      play_gate historyLen n classes = .ok ()) := by
  refine ⟨?_, ?_, ?_⟩
  · intro h3
    unfold play_gate
    by_cases hc : 0 < n ∧ ¬ classes.all (fun s => s == "HatPlayer") = true
    · exact ⟨_, by rw [if_pos hc]⟩
    · exact ⟨_, by rw [if_neg hc, if_pos ⟨rfl, h3⟩]⟩
  · intro hlt hbad
    have hall : ¬ classes.all (fun s => s == "HatPlayer") = true := by
      rcases hbad with ⟨s, hs, hne⟩
      simp only [List.all_eq_true]
      push_neg
      exact ⟨s, hs, by simpa using hne⟩
    unfold play_gate
    rw [if_pos ⟨hlt, hall⟩]
  · intro h4 hall'
    have hall : classes.all (fun s => s == "HatPlayer") = true := by
      simp only [List.all_eq_true]
      intro s hs
      simpa using hall' s hs
    unfold play_gate
    rw [if_neg (by simp [hall]), if_neg (by omega)]

/-- Witness for C9: a 3-player all-hat lineup errors on the first turn, a
4-player lineup with a stranger errors during the first lap, and a 4-player
all-hat lineup passes. -/
theorem play_gate_lineup_witness :
    (∃ e, play_gate 0 3 ["HatPlayer", "HatPlayer", "HatPlayer"] = .error e) ∧
    play_gate 1 4 ["HatPlayer", "CheatingPlayer", "HatPlayer", "HatPlayer"] =
      .error "Hat AI must only play with other hatters" ∧
    play_gate 2 4 ["HatPlayer", "HatPlayer", "HatPlayer", "HatPlayer"] =
      .ok () :=
  ⟨(play_gate_lineup 0 3 _).1 (by norm_num),
   (play_gate_lineup 1 4 _).2.1 (by norm_num)
     ⟨"CheatingPlayer", by simp, by simp⟩,
   (play_gate_lineup 2 4 _).2.2 (by norm_num) (by decide)⟩

end Hat

namespace Hat

/-- Counterexample to C4: the modified player (here player 1) gives a hint
while their default non-play code is `discard 3` (code 5).  The code leaves
the clue value 7 unchanged (it subtracts the literal hint code 0); the claim
prescribes subtracting the `'discards'` entry, which would give 2.  The
substitution happens exactly for the players other than the modified one. -/
theorem update_value_modified_player_counterexample :
    update_value_after_action 1 (fun _ => 0) (fun _ => .discard 3) 7
      (.hint 0) ⟨1, 'r'⟩ 1 = 7 ∧
    subtract_action 7 (.discard 3) = 2 := by
  constructor <;> rfl

/-- C4 as amended: when a player other than the modified player gives a hint,
`update_value_after_action` subtracts that player's default non-play code
from the `'discards'` map; when the modified player gives a hint, the literal
observed hint code 0 is subtracted (with `MODIFIEDACTION = True` the modified
player's hint is taken at face value). -/
theorem update_value_substitution (mp : Nat) (fp : Progress)
    (discards : Nat → Action) (v : Int) (cn : Cardname) (p : Nat) :
    (p ≠ mp →
      update_value_after_action mp fp discards v (.hint 0) cn p =
        subtract_action v (discards p)) ∧
    update_value_after_action mp fp discards v (.hint 0) cn mp =
      subtract_action v (.hint 0) := by
  constructor
  · intro hne
    unfold update_value_after_action effective_action
    rw [if_pos (Or.inl ⟨rfl, hne⟩)]
  · unfold update_value_after_action effective_action
    rw [if_neg]
    rintro (⟨-, h⟩ | ⟨h, -⟩)
    · exact h rfl
    · simp [Action.isPlay] at h

/-- Witness for the amended C4 at `mp = 1`, `p = 0`. -/
theorem update_value_substitution_witness :
    update_value_after_action 1 (fun _ => 0) (fun _ => .discard 3) 7
      (.hint 0) ⟨1, 'r'⟩ 0 = subtract_action 7 (.discard 3) :=
  (update_value_substitution 1 (fun _ => 0) (fun _ => .discard 3) 7
    ⟨1, 'r'⟩ 0).1 (by norm_num)

end Hat

namespace Hat

/-- The plain, un-reduced sum of the encoded actions of a chain of agents. -/
def codeTotal (l : List Action) : Int :=
  (l.map action_to_number).sum

theorem emod_nine_modEq (a : Int) : a % 9 ≡ a [ZMOD 9] :=
  Int.emod_emod_of_dvd a dvd_rfl

theorem codeTotal_cons (a : Action) (l : List Action) :
    codeTotal (a :: l) = action_to_number a + codeTotal l := by
  simp [codeTotal]

theorem codeSum_foldl_modEq (l : List Action) :
    ∀ v : Int, l.foldl (fun v a => (v + action_to_number a) % 9) v ≡
      v + codeTotal l [ZMOD 9] := by
  induction l with
  | nil => intro v; simp [codeTotal]
  | cons a t ih =>
    intro v
    have h1 : (v + action_to_number a) % 9 + codeTotal t ≡
        v + codeTotal (a :: t) [ZMOD 9] := by
      rw [codeTotal_cons, ← add_assoc]
      exact Int.ModEq.add_right _ (emod_nine_modEq _)
    exact ((ih ((v + action_to_number a) % 9)).trans h1)

theorem codeSum_modEq_codeTotal (l : List Action) :
    codeSum l ≡ codeTotal l [ZMOD 9] := by
  simpa using codeSum_foldl_modEq l 0

theorem foldl_subtract_action_modEq (l : List Action) :
    ∀ v : Int, l.foldl subtract_action v ≡ v - codeTotal l [ZMOD 9] := by
  induction l with
  | nil => intro v; simp [codeTotal]
  | cons a t ih =>
    intro v
    have h1 : subtract_action v a - codeTotal t ≡
        v - codeTotal (a :: t) [ZMOD 9] := by
      rw [codeTotal_cons]
      have : v - (action_to_number a + codeTotal t) =
          v - action_to_number a - codeTotal t := by ring
      rw [this]
      exact Int.ModEq.sub_right _ (emod_nine_modEq _)
    exact (ih (subtract_action v a)).trans h1

theorem codeTotal_append (l₁ l₂ : List Action) :
    codeTotal (l₁ ++ l₂) = codeTotal l₁ + codeTotal l₂ := by
  simp [codeTotal]

/-- C1: conservation of the clue value during decoding.  If the stored value
is congruent mod 9 to the summed codes of the whole not-yet-resolved chain,
then after resolving any prefix of the chain by `subtract_action` (the loop
of `initialize_given_clue`), the value is congruent to the summed codes of
the agents still unresolved; and one step of `update_value_after_action`
preserves the same equality with the effective action it attributes to the
actor being the next entry of the chain. -/
theorem given_clue_value_conservation (v : Int) (resolved remaining : List Action)
    (h : v ≡ codeSum (resolved ++ remaining) [ZMOD 9]) :
    List.foldl subtract_action v resolved ≡ codeSum remaining [ZMOD 9] ∧
    (∀ (mp : Nat) (fp : Progress) (discards : Nat → Action) (w : Int)
        (act : Action) (cn : Cardname) (pl : Nat) (rest : List Action),
      w ≡ codeSum (effective_action mp fp discards act cn pl :: rest) [ZMOD 9] →
      update_value_after_action mp fp discards w act cn pl ≡
        codeSum rest [ZMOD 9]) := by
  have step : ∀ (a : Action) (w : Int) (rest : List Action),
      w ≡ codeSum (a :: rest) [ZMOD 9] →
      subtract_action w a ≡ codeSum rest [ZMOD 9] := by
    intro a w rest hw
    have h1 : w ≡ action_to_number a + codeTotal rest [ZMOD 9] :=
      (hw.trans (codeSum_modEq_codeTotal _)).trans
        (by rw [codeTotal_cons])
    have h2 : subtract_action w a ≡ w - action_to_number a [ZMOD 9] :=
      emod_nine_modEq _
    have h3 : w - action_to_number a ≡ codeTotal rest [ZMOD 9] := by
      have := h1.sub_right (action_to_number a)
      simpa using this
    exact (h2.trans h3).trans (codeSum_modEq_codeTotal rest).symm
  constructor
  · have h1 : List.foldl subtract_action v resolved ≡
        v - codeTotal resolved [ZMOD 9] := foldl_subtract_action_modEq resolved v
    have h2 : v - codeTotal resolved ≡
        codeSum (resolved ++ remaining) - codeTotal resolved [ZMOD 9] :=
      h.sub_right _
    have h3 : codeSum (resolved ++ remaining) - codeTotal resolved ≡
        codeTotal remaining [ZMOD 9] := by
      have h4 := (codeSum_modEq_codeTotal (resolved ++ remaining)).sub_right
        (codeTotal resolved)
      rw [codeTotal_append] at h4
      simpa using h4
    exact ((h1.trans h2).trans h3).trans (codeSum_modEq_codeTotal remaining).symm
  · intro mp fp discards w act cn pl rest hw
    exact step _ w rest hw

/-- Witness for C1: value 7 matches the chain `[play 3, discard 2]`
(codes 1 and 6); resolving the first agent leaves 6, the code of the rest. -/
theorem given_clue_value_conservation_witness :
    List.foldl subtract_action 7 [Action.play 3] ≡
      codeSum [Action.discard 2] [ZMOD 9] :=
  (given_clue_value_conservation 7 [Action.play 3] [Action.discard 2]
    (by decide)).1

end Hat

namespace Hat

/-- Counterexample to C6: with hint tokens at the maximum (`modified_hints = 8`)
but a standard recommendation to play (player 2 is committed to slot 1),
`modified_action` returns the play — the play branch returns before the
8-hints check — not `hint 0` as the claim requires "regardless of the
standard recommendation". -/
theorem modified_action_max_hints_counterexample :
    (FutureView.mk 5 8 10 8 0 0 0 0).modified_hints = 8 ∧
    modified_action (FutureView.mk 5 8 10 8 0 0 0 0) 0 2 [] (fun _ => 0)
      (fun _ => none) (fun p => if p = 2 then some 1 else none)
      [⟨⟨1, 'r'⟩, 0⟩, ⟨⟨2, 'y'⟩, 1⟩] (fun _ => 0) [] 20 = .play 1 := by
  constructor
  · rfl
  · decide

/-- C6 as amended: when the hint count at the modified player's turn is at the
maximum (8), `modified_action` returns `hint 0` whenever the standard
recommendation is not a play; when the standard recommendation is a play,
`modified_action` plays (the recommended slot or a substituted playable 5)
even at 8 hints. -/
theorem modified_action_at_max_hints (fv : FutureView) (cluer player : Nat)
    (dont_play : List Cardname) (progress : Progress)
    (ctp : Cardname → Option Nat) (ptc : Nat → Option Int)
    (cards : List Card) (rProgress : Progress) (discardpile : List Cardname)
    (cu : Nat) (h8 : 8 ≤ fv.modified_hints) :
    ((standard_action cluer player dont_play progress ctp ptc cards
        rProgress).isPlay = false →
      modified_action fv cluer player dont_play progress ctp ptc cards
        rProgress discardpile cu = .hint 0) ∧
    ((standard_action cluer player dont_play progress ctp ptc cards
        rProgress).isPlay = true →
      (modified_action fv cluer player dont_play progress ctp ptc cards
        rProgress discardpile cu).isPlay = true) := by
  constructor
  · intro hx
    unfold modified_action
    rcases hstd : standard_action cluer player dont_play progress ctp ptc
      cards rProgress with s | s | s
    · rw [hstd] at hx; simp [Action.isPlay] at hx
    · dsimp only; rw [if_pos h8]
    · dsimp only; rw [if_pos h8]
  · intro hx
    unfold modified_action
    rcases hstd : standard_action cluer player dont_play progress ctp ptc
      cards rProgress with s | s | s
    · dsimp only
      split
      · split <;> simp [Action.isPlay]
      · simp [Action.isPlay]
    · rw [hstd] at hx; simp [Action.isPlay] at hx
    · rw [hstd] at hx; simp [Action.isPlay] at hx

/-- Witness for the amended C6: a player with an empty hand has no play,
and `modified_action` hints at 8 hint tokens. -/
theorem modified_action_at_max_hints_witness :
    modified_action (FutureView.mk 5 8 10 8 0 0 0 0) 0 2 [] (fun _ => 0)
      (fun _ => none) (fun _ => none) [] (fun _ => 0) [] 20 = .hint 0 :=
  (modified_action_at_max_hints (FutureView.mk 5 8 10 8 0 0 0 0) 0 2 []
    (fun _ => 0) (fun _ => none) (fun _ => none) [] (fun _ => 0) [] 20
    (by norm_num)).1 (by decide)

end Hat

namespace Hat

/-- C5, evaluated at the failing input: card `3y`, actual progress `y ↦ 1`,
projected progress `y ↦ 2` (player 1, between the cluer 0 and player 2, is
committed to play `2y`).  The card satisfies every wants-to-play condition of
the claim — it is not in `dont_play`, it is immediately playable against the
projected progress, and its prerequisite `2y` is committed in time — yet
`want_to_play` returns `false`: both of its playability tests read
`r.progress` instead of the projected `progress` argument, which also makes
its prerequisite branch (hat_player.py:250) unreachable. -/
theorem want_to_play_ignores_projected_progress :
    want_to_play 0 2 [] (fun c => if c = 'y' then 2 else 0)
      (fun c => if c = ⟨2, 'y'⟩ then some 1 else none) ⟨3, 'y'⟩
      (fun c => if c = 'y' then 1 else 0) = false ∧
    is_cardname_playable ⟨3, 'y'⟩ (fun c => if c = 'y' then 2 else 0) = true ∧
    (fun c => if c = ⟨2, 'y'⟩ then some 1 else none) (prev_cardname ⟨3, 'y'⟩) =
      some 1 ∧
    is_between 1 0 2 = true := by
  refine ⟨?_, ?_, ?_, ?_⟩ <;> decide

end Hat

namespace Hat

theorem find_lowest_go_spec :
    ∀ (rest : List Card) (b : Card),
    ∃ (c : Card) (l₁ l₂ : List Card),
      List.foldl
        (fun acc c =>
          match acc with
          | none => some c
          | some b => if c.name.rank < b.name.rank then some c else some b)
        (some b) rest = some c ∧
      b :: rest = l₁ ++ c :: l₂ ∧
      (∀ d ∈ l₁, c.name.rank < d.name.rank) ∧
      (∀ d ∈ l₂, c.name.rank ≤ d.name.rank) ∧
      (∀ d ∈ b :: rest, c.name.rank ≤ d.name.rank) := by
  intro rest
  induction rest with
  | nil =>
    intro b
    exact ⟨b, [], [], rfl, rfl, by simp, by simp, by simp⟩
  | cons a t ih =>
    intro b
    by_cases hab : a.name.rank < b.name.rank
    · obtain ⟨c, l₁, l₂, hfold, hdec, h1, h2, hmin⟩ := ih a
      refine ⟨c, b :: l₁, l₂, ?_, ?_, ?_, h2, ?_⟩
      · rw [List.foldl_cons]
        simpa [hab] using hfold
      · rw [List.cons_append, ← hdec]
      · intro d hd
        rcases List.mem_cons.1 hd with rfl | hd
        · exact lt_of_le_of_lt (hmin a (by simp)) hab
        · exact h1 d hd
      · intro d hd
        rcases List.mem_cons.1 hd with rfl | hd
        · exact le_of_lt (lt_of_le_of_lt (hmin a (by simp)) hab)
        · exact hmin d hd
    · obtain ⟨c, l₁, l₂, hfold, hdec, h1, h2, hmin⟩ := ih b
      have hba : b.name.rank ≤ a.name.rank := le_of_not_lt hab
      have hfold' :
          List.foldl
            (fun acc c =>
              match acc with
              | none => some c
              | some b => if c.name.rank < b.name.rank then some c else some b)
            (some b) (a :: t) = some c := by
        rw [List.foldl_cons]
        simpa [hab] using hfold
      cases l₁ with
      | nil =>
        obtain ⟨hbc, htl⟩ : b = c ∧ t = l₂ := by
          have h := hdec
          simp only [List.nil_append, List.cons.injEq] at h
          exact h
        subst hbc
        subst htl
        refine ⟨b, [], a :: t, hfold', rfl, by simp, ?_, ?_⟩
        · intro d hd
          rcases List.mem_cons.1 hd with rfl | hd
          · exact hba
          · exact h2 d hd
        · intro d hd
          rcases List.mem_cons.1 hd with rfl | hd
          · exact le_refl _
          · rcases List.mem_cons.1 hd with rfl | hd
            · exact hba
            · exact hmin d (by simp [hd])
      | cons x xs =>
        obtain ⟨rfl, htx⟩ : x = b ∧ t = xs ++ c :: l₂ := by
          have := hdec
          simp only [List.cons_append, List.cons.injEq] at this
          exact ⟨this.1.symm, this.2⟩
        have hcb : c.name.rank < x.name.rank := h1 x (by simp)
        refine ⟨c, x :: a :: xs, l₂, hfold', ?_, ?_, h2, ?_⟩
        · rw [htx]; simp
        · intro d hd
          rcases List.mem_cons.1 hd with rfl | hd
          · exact hcb
          · rcases List.mem_cons.1 hd with rfl | hd
            · exact lt_of_lt_of_le hcb hba
            · exact h1 d (by simp [hd])
        · intro d hd
          rcases List.mem_cons.1 hd with rfl | hd
          · exact le_of_lt hcb
          · rcases List.mem_cons.1 hd with rfl | hd
            · exact le_of_lt (lt_of_lt_of_le hcb hba)
            · exact hmin d (by simp [hd])

/-- Decomposition produced by `find_lowest` on a nonempty list: it returns an
element of minimal rank; the elements strictly before it in the list are
strictly above it in rank (it is the first minimum), the ones after it are at
least it. -/
theorem find_lowest_spec (l : List Card) (hl : l ≠ []) :
    ∃ (c : Card) (l₁ l₂ : List Card), find_lowest l = some c ∧
      l = l₁ ++ c :: l₂ ∧ (∀ d ∈ l₁, c.name.rank < d.name.rank) ∧
      (∀ d ∈ l₂, c.name.rank ≤ d.name.rank) ∧
      (∀ d ∈ l, c.name.rank ≤ d.name.rank) := by
  cases l with
  | nil => exact absurd rfl hl
  | cons b rest =>
    obtain ⟨c, l₁, l₂, hfold, hdec, h1, h2, hmin⟩ := find_lowest_go_spec rest b
    exact ⟨c, l₁, l₂, by simpa [find_lowest] using hfold, hdec, h1, h2, hmin⟩

end Hat

namespace Hat

/-- Counterexample to C8: both cards of the hand `[1y, 1r]` are wants-to-play
candidates of equal rank, yet `standard_action` returns slot 1 (the newest),
not the lowest slot index 0 — the reversed candidate list is scanned by the
lowest-rank comparator, so rank decides first and ties go to the newest
card. -/
theorem standard_action_oldest_counterexample :
    standard_action 0 1 [] (fun _ => 0) (fun _ => none) (fun _ => none)
      [⟨⟨1, 'y'⟩, 0⟩, ⟨⟨1, 'r'⟩, 1⟩] (fun _ => 0) = .play 1 ∧
    want_to_play 0 1 [] (fun _ => 0) (fun _ => none) ⟨1, 'y'⟩ (fun _ => 0) =
      true ∧
    want_to_play 0 1 [] (fun _ => 0) (fun _ => none) ⟨1, 'r'⟩ (fun _ => 0) =
      true := by
  refine ⟨?_, ?_, ?_⟩ <;> decide

/-- C8 as amended: whenever `standard_action` finds a non-empty set of
wants-to-play candidates (and the player is not already committed), the
returned slot is `cards.index` of a candidate `c` of minimal rank among the
candidates, with ties broken toward the newest card: every candidate before
`c` in hand order has rank at least `c`'s, and every candidate after `c` has
rank strictly greater. -/
theorem standard_action_lowest_rank_newest (cluer player : Nat)
    (dont_play : List Cardname) (progress : Progress)
    (ctp : Cardname → Option Nat) (ptc : Nat → Option Int)
    (cards : List Card) (rProgress : Progress)
    (hptc : ptc player = none)
    (hne : cards.filter (fun card => want_to_play cluer player dont_play
      progress ctp card.name rProgress) ≠ []) :
    ∃ (l₁ l₂ : List Card) (c : Card),
      cards.filter (fun card => want_to_play cluer player dont_play progress
        ctp card.name rProgress) = l₁ ++ c :: l₂ ∧
      standard_action cluer player dont_play progress ctp ptc cards
        rProgress = .play (cards.indexOf c : Nat) ∧
      (∀ d ∈ l₁, c.name.rank ≤ d.name.rank) ∧
      (∀ d ∈ l₂, c.name.rank < d.name.rank) := by
  have hrev : (cards.filter (fun card => want_to_play cluer player dont_play
      progress ctp card.name rProgress)).reverse ≠ [] := by
    simpa using hne
  obtain ⟨c, l₁, l₂, hfl, hdec, h1, h2, hmin⟩ := find_lowest_spec _ hrev
  refine ⟨l₂.reverse, l₁.reverse, c, ?_, ?_, ?_, ?_⟩
  · have h := congrArg List.reverse hdec
    simpa [List.reverse_append] using h
  · unfold standard_action
    rw [hptc]
    dsimp only
    rw [hfl]
  · intro d hd
    exact h2 d (by simpa using hd)
  · intro d hd
    exact h1 d (by simpa using hd)

/-- Witness for the amended C8 at the two-candidate hand `[1y, 1r]`. -/
theorem standard_action_lowest_rank_newest_witness :
    ∃ (l₁ l₂ : List Card) (c : Card),
      List.filter (fun card => want_to_play 0 1 [] (fun _ => 0) (fun _ => none)
        card.name (fun _ => 0)) [⟨⟨1, 'y'⟩, 0⟩, ⟨⟨1, 'r'⟩, 1⟩] =
          l₁ ++ c :: l₂ ∧
      standard_action 0 1 [] (fun _ => 0) (fun _ => none) (fun _ => none)
        [⟨⟨1, 'y'⟩, 0⟩, ⟨⟨1, 'r'⟩, 1⟩] (fun _ => 0) =
          .play (List.indexOf c [⟨⟨1, 'y'⟩, 0⟩, ⟨⟨1, 'r'⟩, 1⟩] : Nat) ∧
      (∀ d ∈ l₁, c.name.rank ≤ d.name.rank) ∧
      (∀ d ∈ l₂, c.name.rank < d.name.rank) :=
  standard_action_lowest_rank_newest 0 1 [] (fun _ => 0) (fun _ => none)
    (fun _ => none) [⟨⟨1, 'y'⟩, 0⟩, ⟨⟨1, 'r'⟩, 1⟩] (fun _ => 0) rfl
    (by decide)

end Hat

namespace Hat

/-- When some older card differs in rank from the newest card, the `x == 2`
scan always finds a clue value, and that value does not touch the newest
card. -/
theorem findClue2_not_touch (newest : Cardname) :
    ∀ l : List Cardname, (∃ c ∈ l, c.rank ≠ newest.rank) →
    ∃ v, findClue2 newest l = some v ∧ touches newest v = false := by
  intro l
  induction l with
  | nil =>
    rintro ⟨c, hc, -⟩
    exact absurd hc (List.not_mem_nil c)
  | cons a t ih =>
    rintro ⟨c, hc, hcr⟩
    by_cases har : a.rank = newest.rank
    · by_cases hsc : a.suit ≠ newest.suit ∧ newest.suit ≠ RAINBOW_SUIT
      · refine ⟨.suit (if a.suit ≠ RAINBOW_SUIT then a.suit
          else if newest.suit ≠ VANILLA_SUITS.getD 0 default then
            VANILLA_SUITS.getD 0 default
          else VANILLA_SUITS.getD 1 default), ?_, ?_⟩
        · simp only [findClue2]
          rw [if_neg (not_ne_iff.2 har), if_pos hsc]
        · simp only [touches, Bool.or_eq_false_iff, beq_eq_false_iff_ne]
          refine ⟨?_, hsc.2⟩
          by_cases hra : a.suit = RAINBOW_SUIT
          · rw [if_neg (not_ne_iff.2 hra)]
            by_cases hnr : newest.suit = VANILLA_SUITS.getD 0 default
            · rw [if_neg (not_ne_iff.2 hnr), hnr]
              decide
            · rw [if_pos hnr]
              exact hnr
          · rw [if_pos hra]
            exact fun h => hsc.1 h.symm
      · have hex : ∃ c ∈ t, c.rank ≠ newest.rank := by
          rcases List.mem_cons.1 hc with rfl | hct
          · exact absurd har hcr
          · exact ⟨c, hct, hcr⟩
        obtain ⟨v, hv, htv⟩ := ih hex
        refine ⟨v, ?_, htv⟩
        simp only [findClue2]
        rw [if_neg (not_ne_iff.2 har), if_neg hsc]
        exact hv
    · refine ⟨.rank a.rank, ?_, ?_⟩
      · simp only [findClue2]
        rw [if_pos har]
      · simp only [touches, beq_eq_false_iff_ne]
        exact fun h => har h.symm

/-- The clue value chosen for a given `x = cluenumber % 3` decodes back to
`x` by the touching test of `clue_to_number`, provided that for `x = 2` some
older card differs in rank from the newest. -/
theorem clue_value_choice_spec (x : Nat) (newest : Cardname)
    (older : List Cardname) (hx : x < 3)
    (hr : x = 2 → ∃ c ∈ older, c.rank ≠ newest.rank) :
    ∃ v, clue_value_choice x newest older = some v ∧
      (if ¬ touches newest v then (2 : Int) else if v.isSuit then 1
        else 0) = (x : Int) := by
  obtain h0 | h1 | h2 : x = 0 ∨ x = 1 ∨ x = 2 := by omega
  · subst h0
    refine ⟨.rank newest.rank, by simp [clue_value_choice], ?_⟩
    have ht : touches newest (.rank newest.rank) = true := by simp [touches]
    simp [ht, ClueV.isSuit]
  · subst h1
    refine ⟨.suit (if newest.suit ≠ RAINBOW_SUIT then newest.suit
      else VANILLA_SUITS.getD 2 default), by simp [clue_value_choice], ?_⟩
    have ht : touches newest (.suit (if newest.suit ≠ RAINBOW_SUIT then
        newest.suit else VANILLA_SUITS.getD 2 default)) = true := by
      by_cases hrw : newest.suit = RAINBOW_SUIT
      · simp [touches, hrw]
      · simp [touches, hrw]
    rw [ht]
    simp [ClueV.isSuit]
  · subst h2
    obtain ⟨v, hv, htv⟩ := findClue2_not_touch newest older (hr rfl)
    refine ⟨v, by simp [clue_value_choice, hv], ?_⟩
    simp [htv]

theorem emod_sub_left (a c p : Int) : (a % p - c) % p = (a - c) % p := by
  calc (a % p - c) % p = (a % p % p - c % p) % p := Int.sub_emod _ _ _
    _ = (a % p - c % p) % p := by rw [Int.emod_emod_of_dvd a dvd_rfl]
    _ = (a - c) % p := (Int.sub_emod _ _ _).symm

end Hat

namespace Hat

/-- C3: clue round-trip — for at least 4 players, every clue number `n ≤ 8`,
and every target hand holding a card whose rank differs from the newest
card's rank and a card whose suit differs from the newest card's suit,
`clue_to_number` applied to the `(target, clue value)` returned by
`number_to_clue n me _` yields `n` again. -/
theorem clue_roundtrip (p me n : Nat) (hands : Nat → List Cardname)
    (hp : 4 ≤ p) (hme : me < p) (hn : n ≤ 8)
    (hrank : ∃ c ∈ hands ((me + 1 + n / 3) % p),
      c.rank ≠ ((hands ((me + 1 + n / 3) % p)).getLastD default).rank)
    (hsuit : ∃ c ∈ hands ((me + 1 + n / 3) % p),
      c.suit ≠ ((hands ((me + 1 + n / 3) % p)).getLastD default).suit) :
    clue_to_number (number_to_clue n me p hands).1
      (number_to_clue n me p hands).2 me p hands = (n : Int) := by
  have hkp : n / 3 < p := by omega
  have hr2 : n % 3 = 2 → ∃ c ∈ (hands ((me + 1 + n / 3) % p)).dropLast,
      c.rank ≠ ((hands ((me + 1 + n / 3) % p)).getLastD default).rank := by
    intro _
    obtain ⟨c, hc, hcr⟩ := hrank
    have hne : hands ((me + 1 + n / 3) % p) ≠ [] := by
      intro h
      rw [h] at hc
      exact absurd hc (List.not_mem_nil c)
    have hLD : (hands ((me + 1 + n / 3) % p)).getLastD default =
        (hands ((me + 1 + n / 3) % p)).getLast hne := by
      rw [List.getLastD_eq_getLast?, List.getLast?_eq_getLast _ hne]
      rfl
    have hsplit := List.dropLast_append_getLast hne
    have hmem : c ∈ (hands ((me + 1 + n / 3) % p)).dropLast ++
        [(hands ((me + 1 + n / 3) % p)).getLast hne] := by
      rw [hsplit]
      exact hc
    rcases List.mem_append.1 hmem with h | h
    · exact ⟨c, h, hcr⟩
    · have hcl : c = (hands ((me + 1 + n / 3) % p)).getLast hne := by
        simpa using h
      rw [hcl, ← hLD] at hcr
      exact absurd rfl hcr
  obtain ⟨v, hv, hvx⟩ := clue_value_choice_spec (n % 3)
    ((hands ((me + 1 + n / 3) % p)).getLastD default)
    ((hands ((me + 1 + n / 3) % p)).dropLast)
    (Nat.mod_lt _ (by norm_num)) hr2
  have hntc : number_to_clue n me p hands = ((me + 1 + n / 3) % p, v) := by
    unfold number_to_clue
    dsimp only
    rw [hv]
  rw [hntc]
  unfold clue_to_number
  dsimp only
  have hstep : ((((me + 1 + n / 3) % p : Nat) : Int) - (me : Int) - 1) %
      (p : Int) = ((n / 3 : Nat) : Int) := by
    have hcast : (((me + 1 + n / 3) % p : Nat) : Int) =
        ((me + 1 + n / 3 : Nat) : Int) % (p : Int) := by
      norm_cast
    rw [hcast, sub_sub, emod_sub_left]
    have heq : ((me + 1 + n / 3 : Nat) : Int) - ((me : Int) + 1) =
        ((n / 3 : Nat) : Int) := by
      push_cast
      ring
    rw [heq]
    exact Int.emod_eq_of_lt (by positivity) (by exact_mod_cast hkp)
  rw [hstep, hvx]
  have := Nat.div_add_mod n 3
  push_cast
  omega

/-- Witness for C3 at `p = 4`, `me = 0`, `n = 5` (target 2, code 2 = clue a
rank that avoids the newest card): the target hand `[1r, 2y, 3g]` has both
distinguishing features, and the clue round-trips to 5. -/
theorem clue_roundtrip_witness :
    clue_to_number
      (number_to_clue 5 0 4 (fun i => if i = 2 then
        [⟨1, 'r'⟩, ⟨2, 'y'⟩, ⟨3, 'g'⟩] else [⟨1, 'r'⟩])).1
      (number_to_clue 5 0 4 (fun i => if i = 2 then
        [⟨1, 'r'⟩, ⟨2, 'y'⟩, ⟨3, 'g'⟩] else [⟨1, 'r'⟩])).2
      0 4 (fun i => if i = 2 then [⟨1, 'r'⟩, ⟨2, 'y'⟩, ⟨3, 'g'⟩]
        else [⟨1, 'r'⟩]) = 5 :=
  clue_roundtrip 4 0 5
    (fun i => if i = 2 then [⟨1, 'r'⟩, ⟨2, 'y'⟩, ⟨3, 'g'⟩] else [⟨1, 'r'⟩])
    (by norm_num) (by norm_num) (by norm_num)
    (by decide) (by decide)

end Hat
